import Mathlib

/-!
Shallow embedding of the version-resolution pipeline of the
github-pr-resource `check` step (check.go, models.go).

Go `time.Time` values are modelled as `Int` timestamps, with
`t.After(u) ↔ u < t`.  Go `int` is modelled as `Int`.  The
`githubv4.PullRequestState` string enum is modelled as `String`
("OPEN" / "CLOSED" / "MERGED").  Functions of the form
`func f(...) (T, error)` are modelled as `Except String T` for the
external collaborator, and the `Check` entry point itself is modelled
as the Go pair `(CheckResponse, error)`, i.e. `List Version × Option
String`, so that a `return nil, err` in the source is visibly a
`([], some err)` in the embedding.
-/

namespace GithubPRResource

/-- models.go: CommitObject represents the GraphQL commit node. -/
structure CommitObject where
  ID : String
  OID : String
  CommittedDate : Int
  Message : String
deriving DecidableEq, Repr

/-- models.go: LabelObject represents the GraphQL label node. -/
structure LabelObject where
  Name : String
deriving DecidableEq, Repr

/-- models.go: PullRequestObject represents the GraphQL pull-request node. -/
structure PullRequestObject where
  ID : String
  Number : Int
  Title : String
  URL : String
  BaseRefName : String
  HeadRefName : String
  IsCrossRepository : Bool
  IsDraft : Bool
  State : String
  ClosedAt : Int
  MergedAt : Int
deriving DecidableEq, Repr

/-- models.go: PullRequest embeds PullRequestObject and includes the tip commit. -/
structure PullRequest extends PullRequestObject where
  Tip : CommitObject
  ApprovedReviewCount : Int
  Labels : List LabelObject
  HasStatus : Bool
deriving DecidableEq, Repr

/-- models.go: Version communicated with Concourse. -/
structure Version where
  PR : String
  Commit : String
  CommittedDate : Int
  ApprovedReviewCount : String
  State : String
deriving DecidableEq, Repr, Inhabited

/-- models.go: Source represents the configuration for the resource
(only the fields read by Check are modelled). -/
structure Source where
  Paths : List String
  IgnorePaths : List String
  DisableCISkip : Bool
  DisableForks : Bool
  IgnoreDrafts : Bool
  BaseBranch : String
  RequiredReviewApprovals : Int
  Labels : List String
  States : List String
  StatusContext : String
deriving DecidableEq, Repr

/-- models.go: Page represents settings for request parameters
(check.go's `Parameters` type has the same fields). -/
structure Page where
  PageSize : Int
  MaxPRs : Int
  SortField : String
  SortDirection : String
  MaxRetries : Int
  DelayBetweenPages : Int
deriving DecidableEq, Repr

/-- The Go zero value `Page\x7b\x7d`. -/
def emptyPage : Page :=
  { PageSize := 0, MaxPRs := 0, SortField := "", SortDirection := "",
    MaxRetries := 0, DelayBetweenPages := 0 }

/-- models.go: UpdatedDate returns the last time a PR was updated, either by
commit or being closed/merged (the `switch p.State` in the source). -/
def PullRequest.UpdatedDate (p : PullRequest) : Int :=
  if p.State = "CLOSED" then p.ClosedAt
  else if p.State = "MERGED" then p.MergedAt
  else p.Tip.CommittedDate

/-- models.go: NewVersion constructs a new Version from a pull request. -/
def NewVersion (p : PullRequest) : Version :=
  { PR := toString p.Number
    Commit := p.Tip.OID
    CommittedDate := p.UpdatedDate
    ApprovedReviewCount := toString p.ApprovedReviewCount
    State := p.State }

/-- Go strings.Contains for a character-list haystack. -/
def hasSubstr (needle : List Char) : List Char → Bool
  | [] => List.isPrefixOf needle []
  | c :: cs => List.isPrefixOf needle (c :: cs) || hasSubstr needle cs

/-- check.go: ContainsSkipCI returns true if a string contains the
case-insensitive `ci skip` or `skip ci` markers in square brackets
(the regexp in the source, matched anywhere in the string). -/
def ContainsSkipCI (s : String) : Bool :=
  let lower := s.data.map Char.toLower
  hasSubstr "[ci skip]".data lower || hasSubstr "[skip ci]".data lower

/-- check.go: IsInsidePath checks whether the child path is inside the parent
path.  filepath.Separator is "/" on the target platform. -/
def IsInsidePath (parent child : String) : Bool :=
  if parent = child then true
  else
    let parentWithTrailingSlash :=
      if parent.data.getLast? = some '/' then parent else parent ++ "/"
    List.isPrefixOf parentWithTrailingSlash.data child.data

/-- check.go: SetPaginationParameters (the revision used by Check in
check.go: silently defaults invalid sort enums, clamps everything). -/
def SetPaginationParameters (p : Page) : Page :=
  let maxPRs : Int :=
    if p.MaxPRs = 0 then 200
    else if p.MaxPRs > 500 then 500
    else p.MaxPRs
  let pageSize : Int :=
    if p.PageSize = 0 then 50
    else if p.PageSize > 200 then 200
    else if p.PageSize > p.MaxPRs then p.MaxPRs
    else p.PageSize
  let maxRetries : Int :=
    if p.MaxRetries = 0 then 4
    else if p.MaxRetries > 10 then 10
    else p.MaxRetries
  let delayBetweenPages : Int :=
    if p.DelayBetweenPages = 0 then 500
    else if p.DelayBetweenPages > 10000 then 10000
    else p.DelayBetweenPages
  let sortField : String :=
    match p.SortField with
    | "UPDATED_AT" => "UPDATED_AT"
    | "CREATED_AT" => "CREATED_AT"
    | "COMMENTS" => "COMMENTS"
    | "" => "UPDATED_AT"
    | _ => "UPDATED_AT"
  let sortDirection : String :=
    match p.SortDirection with
    | "DESC" => "DESC"
    | "ASC" => "ASC"
    | "" => "DESC"
    | _ => "DESC"
  { PageSize := pageSize, MaxPRs := maxPRs, SortField := sortField,
    SortDirection := sortDirection, MaxRetries := maxRetries,
    DelayBetweenPages := delayBetweenPages }

/-- models.go: ValidatePageParameters (the revision that reports invalid sort
enums as errors and returns the zero Page).  In the source the direction
error overwrites a field error; defaults are applied on zero, MaxPRs is
clamped to 2000, PageSize to 100 and to the normalized MaxPRs, while
MaxRetries and DelayBetweenPages get no upper clamp. -/
def ValidatePageParameters (p : Page) : Page × Option String :=
  let maxPRs : Int :=
    if p.MaxPRs ≤ 0 then 100
    else if p.MaxPRs > 2000 then 2000
    else p.MaxPRs
  let pageSize : Int :=
    if p.PageSize = 0 then 50
    else if p.PageSize > 100 then 100
    else if p.PageSize > maxPRs then maxPRs
    else p.PageSize
  let maxRetries : Int :=
    if p.MaxRetries = 0 then 4 else p.MaxRetries
  let delayBetweenPages : Int :=
    if p.DelayBetweenPages = 0 then 500 else p.DelayBetweenPages
  let sortField : String :=
    match p.SortField with
    | "UPDATED_AT" => "UPDATED_AT"
    | "CREATED_AT" => "CREATED_AT"
    | "COMMENTS" => "COMMENTS"
    | "" => "UPDATED_AT"
    | _ => ""
  let sortDirection : String :=
    match p.SortDirection with
    | "DESC" => "DESC"
    | "ASC" => "ASC"
    | "" => "DESC"
    | _ => ""
  let pageError : Option String :=
    match p.SortDirection with
    | "DESC" | "ASC" | "" =>
      (match p.SortField with
       | "UPDATED_AT" | "CREATED_AT" | "COMMENTS" | "" => none
       | s => some ("sort_field \x27" ++ s ++ "\x27 not valid, please choose one of \x27UPDATED_AT\x27, \x27CREATED_AT\x27 or \x27COMMENTS\x27"))
    | s => some ("sort_dir \x27" ++ s ++ "\x27 not valid, please choose one of \x27ASC\x27 or \x27DESC\x27")
  match pageError with
  | some e => (emptyPage, some e)
  | none =>
    ({ PageSize := pageSize, MaxPRs := maxPRs, SortField := sortField,
       SortDirection := sortDirection, MaxRetries := maxRetries,
       DelayBetweenPages := delayBetweenPages }, none)

/-!
Go standard library `path/filepath.Match` (go1.14, unix, Separator = "/"),
called by FilterPath and FilterIgnorePath.  `none` models ErrBadPattern
("syntax error in pattern"); `some b` a successful match result.
-/

/-- match.go getEsc: one (possibly backslash-escaped) character of a bracket
class; `none` is ErrBadPattern (empty input, a leading dash or bracket, a
trailing backslash, or nothing after the character). -/
def getEsc : List Char → Option (Char × List Char)
  | [] => none
  | c :: cs =>
    if c = '-' ∨ c = ']' then none
    else if c = '\\' then
      match cs with
      | [] => none
      | [_] => none
      | d :: ds => some (d, ds)
    else
      match cs with
      | [] => none
      | _ => some (c, cs)

/-- getEsc consumes at least one character of its input. -/
theorem getEsc_length {l : List Char} {r : Char} {l' : List Char}
    (h : getEsc l = some (r, l')) : l'.length < l.length := by
  match l with
  | [] => simp [getEsc] at h
  | c :: cs =>
    simp only [getEsc] at h
    split at h
    · simp at h
    · split at h
      · match cs with
        | [] => simp at h
        | [d] => simp at h
        | d :: e :: ds =>
          simp only [Option.some.injEq, Prod.mk.injEq] at h
          obtain ⟨h1, h2⟩ := h
          subst h2; simp
      · match cs with
        | [] => simp at h
        | e :: ds =>
          simp only [Option.some.injEq, Prod.mk.injEq] at h
          obtain ⟨h1, h2⟩ := h
          subst h2; simp

/-- match.go: the range-parsing loop of the bracket-class case of matchChunk,
with `nrange` counting the ranges parsed so far and `matched` whether the
rune fell into one of them. -/
def matchRanges (r : Char) (matched : Bool) (nrange : Nat) (chunk : List Char) :
    Option (Bool × List Char) :=
  if chunk.head? = some ']' ∧ nrange > 0 then some (matched, chunk.tail)
  else
    match h1 : getEsc chunk with
    | none => none
    | some (lo, c1) =>
      if c1.head? = some '-' then
        match h3 : getEsc c1.tail with
        | none => none
        | some (hi, c2) =>
          matchRanges r (matched || (decide (lo ≤ r) && decide (r ≤ hi))) (nrange + 1) c2
      else
        matchRanges r (matched || (decide (lo ≤ r) && decide (r ≤ lo))) (nrange + 1) c1
termination_by chunk.length
decreasing_by
  · have hl1 := getEsc_length h1
    have hl3 := getEsc_length h3
    have ht : c1.tail.length ≤ c1.length := by cases c1 <;> simp
    omega
  · exact getEsc_length h1





/-- The range loop never returns more of the chunk than it was given. -/
theorem matchRanges_length {r : Char} {m : Bool} {n : Nat} {chunk : List Char}
    {m' : Bool} {chunk' : List Char}
    (h : matchRanges r m n chunk = some (m', chunk')) : chunk'.length ≤ chunk.length := by
  suffices H : ∀ k (m : Bool) (n : Nat) (chunk : List Char) (m' : Bool) (chunk' : List Char),
      chunk.length ≤ k → matchRanges r m n chunk = some (m', chunk') →
      chunk'.length ≤ chunk.length by
    exact H chunk.length m n chunk m' chunk' (Nat.le_refl _) h
  intro k
  induction k with
  | zero =>
    intro m n chunk m' chunk' hk h
    have : chunk = [] := List.length_eq_zero.mp (Nat.le_zero.mp hk)
    subst this
    rw [matchRanges] at h
    simp [getEsc] at h
  | succ k ih =>
    intro m n chunk m' chunk' hk h
    rw [matchRanges] at h
    split at h
    · cases h
      cases chunk <;> simp
    · split at h
      · simp at h
      · rename_i lo c1 heq
        split at h
        · split at h
          · simp at h
          · rename_i hi c2 heq2
            have g1 := getEsc_length heq
            have g2 := getEsc_length heq2
            have ht : c1.tail.length ≤ c1.length := by cases c1 <;> simp
            have := ih _ _ c2 _ _ (by omega) h
            omega
        · have g1 := getEsc_length heq
          have := ih _ _ c1 _ _ (by omega) h
          omega


/-- match.go matchChunk: matches the beginning of `s` against `chunk`,
returning the unmatched tail of `s` on success (`some (some rest)`),
`some none` on a failed match, `none` on ErrBadPattern.  In go1.14 an empty
`s` against a nonempty chunk is a failed match, checked before the chunk
head is examined. -/
def matchChunk : List Char → List Char → Option (Option (List Char))
  | [], s => some (some s)
  | _ :: _, [] => some none
  | '[' :: cs, r :: s1 =>
    if cs = [] then none
    else
      let negated : Bool := cs.head? == some '^'
      let cs1 := if negated then cs.tail else cs
      match matchRanges r false 0 cs1 with
      | none => none
      | some (matched, cs2) =>
        if matched = negated then some none
        else matchChunk cs2 s1
  | '?' :: cs, d :: s1 => if d = '/' then some none else matchChunk cs s1
  | '\\' :: cs, e :: s1 =>
    match cs with
    | [] => none
    | d :: cs1 => if d ≠ e then some none else matchChunk cs1 s1
  | c :: cs, e :: s1 => if c ≠ e then some none else matchChunk cs s1

/-- match.go scanChunk: the inner Scan loop collecting one chunk up to the
next unescaped star, tracking bracket-class state and skipping the
character after a backslash. -/
def scanChunkBody : Bool → List Char → List Char × List Char
  | _, [] => ([], [])
  | inrange, c :: cs =>
    if c = '*' ∧ ¬inrange then ([], c :: cs)
    else if c = '\\' then
      match cs with
      | [] => ([c], [])
      | d :: ds =>
        let (ch, r) := scanChunkBody inrange ds
        (c :: d :: ch, r)
    else
      let inrange1 := if c = '[' then true else if c = ']' then false else inrange
      let (ch, r) := scanChunkBody inrange1 cs
      (c :: ch, r)


/-- The Scan loop splits its input: chunk and rest lengths sum to the input
length. -/
theorem scanChunkBody_length (ir : Bool) (l : List Char) :
    (scanChunkBody ir l).1.length + (scanChunkBody ir l).2.length = l.length := by
  suffices H : ∀ k (ir : Bool) (l : List Char), l.length ≤ k →
      (scanChunkBody ir l).1.length + (scanChunkBody ir l).2.length = l.length by
    exact H l.length ir l (Nat.le_refl _)
  intro k
  induction k with
  | zero =>
    intro ir l hk
    have : l = [] := List.length_eq_zero.mp (Nat.le_zero.mp hk)
    subst this
    simp [scanChunkBody]
  | succ k ih =>
    intro ir l hk
    match l with
    | [] => simp [scanChunkBody]
    | c :: cs =>
      rw [scanChunkBody.eq_def]
      simp only
      split
      · simp
      · split
        · split
          · simp
          · rename_i d ds
            have := ih ir ds (by simp at hk; omega)
            simp only [List.length_cons]
            omega
        · have := ih (if c = '[' then true else if c = ']' then false else ir) cs
            (by simp at hk; omega)
          simp only [List.length_cons]
          omega

/-- On a nonempty input not starting with a star, the Scan loop collects a
nonempty chunk. -/
theorem scanChunkBody_ne {l : List Char} (h : l ≠ []) (h2 : l.head? ≠ some '*') :
    (scanChunkBody false l).1 ≠ [] := by
  match l with
  | c :: cs =>
    rw [scanChunkBody.eq_def]
    simp only
    split
    · rename_i hcond
      exact absurd (by simp [hcond.1]) h2
    · split
      · split
        · simp
        · simp
      · simp

/-- match.go scanChunk: strips leading stars (setting the star flag) and
returns the next chunk together with the rest of the pattern. -/
def scanChunk (pattern : List Char) : Bool × List Char × List Char :=
  let star := pattern.head? = some '*'
  let p1 := pattern.dropWhile (fun c => c = '*')
  let (chunk, rest) := scanChunkBody false p1
  (star, chunk, rest)

/-- After dropping leading stars, the head is not a star. -/
theorem dropWhile_head_ne_star (l : List Char) :
    (l.dropWhile (fun c => c = '*')).head? ≠ some '*' := by
  induction l with
  | nil => simp
  | cons c cs ih =>
    by_cases hc : c = '*'
    · simpa [List.dropWhile_cons, hc] using ih
    · simp [List.dropWhile_cons, hc]

/-- Dropping leading stars does not lengthen a list. -/
theorem length_dropWhile_star_le (l : List Char) :
    (l.dropWhile (fun c => c = '*')).length ≤ l.length := by
  induction l with
  | nil => simp
  | cons c cs ih =>
    by_cases hc : c = '*'
    · simp only [List.dropWhile_cons, hc, decide_True, if_true]
      exact Nat.le_trans ih (by simp)
    · simp [List.dropWhile_cons, hc]

/-- scanChunk makes progress: the rest of the pattern is strictly shorter
(the termination measure of the Pattern loop of Match). -/
theorem scanChunk_rest_lt {pattern : List Char} (h : pattern ≠ []) :
    (scanChunk pattern).2.2.length < pattern.length := by
  by_cases hs : pattern.head? = some '*'
  · have hlen := scanChunkBody_length false (pattern.dropWhile (fun c => c = '*'))
    match pattern, h with
    | c :: cs, _ =>
      have hc : c = '*' := by simpa using hs
      have hdrop : ((c :: cs).dropWhile (fun c => c = '*')).length ≤ cs.length := by
        rw [List.dropWhile_cons]
        simp only [hc, decide_True, if_true]
        exact length_dropWhile_star_le cs
      rw [scanChunk]
      simp only [List.length_cons]
      omega
  · have hp1e : pattern.dropWhile (fun c => c = '*') = pattern := by
      match pattern, h with
      | c :: cs, _ =>
        have hc : ¬(c = '*') := fun hh => hs (by simp [hh])
        simp [List.dropWhile_cons, hc]
    have hlen := scanChunkBody_length false pattern
    have hne : (scanChunkBody false pattern).1 ≠ [] := by
      apply scanChunkBody_ne h
      intro hh
      exact hs (by
        match pattern, h with
        | c :: cs, _ => simpa using hh)
    have hpos : 0 < (scanChunkBody false pattern).1.length := List.length_pos.mpr hne
    rw [scanChunk]
    simp only [hp1e]
    omega

/-- match.go: the `for i` loop inside Match that, after a star, retries
matchChunk while skipping name bytes up to the next separator; `restEmpty`
records whether the pattern is exhausted after this chunk.  `some none`
means the loop found nothing, `some (some t)` a successful skip leaving
tail `t`, `none` ErrBadPattern. -/
def starLoop (chunk : List Char) (restEmpty : Bool) : List Char → Option (Option (List Char))
  | [] => some none
  | c :: ns =>
    if c = '/' then some none
    else
      match matchChunk chunk ns with
      | none => none
      | some (some t) =>
        if restEmpty ∧ t ≠ [] then starLoop chunk restEmpty ns
        else some (some t)
      | some none => starLoop chunk restEmpty ns

/-- match.go Match (go1.14): the outer Pattern loop over scanChunk results. -/
def matchLoop (pattern name : List Char) : Option Bool :=
  if hp : pattern = [] then some name.isEmpty
  else
    let sc := scanChunk pattern
    if sc.1 ∧ sc.2.1 = [] then some (!(name.contains '/'))
    else
      match matchChunk sc.2.1 name with
      | none => none
      | some (some t) =>
        if t = [] ∨ sc.2.2 ≠ [] then matchLoop sc.2.2 t
        else
          if sc.1 then
            match starLoop sc.2.1 (sc.2.2 = []) name with
            | none => none
            | some (some t2) => matchLoop sc.2.2 t2
            | some none => some false
          else some false
      | some none =>
        if sc.1 then
          match starLoop sc.2.1 (sc.2.2 = []) name with
          | none => none
          | some (some t2) => matchLoop sc.2.2 t2
          | some none => some false
        else some false
termination_by pattern.length
decreasing_by
  all_goals exact scanChunk_rest_lt hp

def filepathMatch (pattern name : String) : Option Bool :=
  matchLoop pattern.data name.data

/-- check.go FilterIgnorePath: keeps the files that neither glob-match the
pattern nor lie inside it; the first filepath.Match error aborts
(ErrBadPattern is the Go error "syntax error in pattern"). -/
def FilterIgnorePath (files : List String) (pattern : String) : Except String (List String) :=
  match files with
  | [] => .ok []
  | file :: fs =>
    match filepathMatch pattern file with
    | none => .error "syntax error in pattern"
    | some m =>
      match FilterIgnorePath fs pattern with
      | .error e => .error e
      | .ok out => .ok (if !m && !(IsInsidePath pattern file) then file :: out else out)

/-- check.go FilterPath: keeps the files that glob-match the pattern or lie
inside it; the first filepath.Match error aborts. -/
def FilterPath (files : List String) (pattern : String) : Except String (List String) :=
  match files with
  | [] => .ok []
  | file :: fs =>
    match filepathMatch pattern file with
    | none => .error "syntax error in pattern"
    | some m =>
      match FilterPath fs pattern with
      | .error e => .error e
      | .ok out => .ok (if m || IsInsidePath pattern file then file :: out else out)

/-- The external fetch collaborator (the `Github` interface as used by Check). -/
structure Github where
  listPullRequests : List String → Page → Except String (List PullRequest)
  listModifiedFiles : Int → Except String (List String)

/-- check.go: CheckRequest (Source, Version and the raw paging Parameters). -/
structure CheckRequest where
  Source : Source
  Version : Version
  Parameters : Page

/-- check.go, Check lines 17-21: the state filter defaults to OPEN when the
source specifies no states. -/
def filterStates (source : Source) : List String :=
  if source.States.length > 0 then source.States else ["OPEN"]

/-- check.go, Check lines 64-81: the nested label loops; true iff some wanted
label equals some label of the pull request. -/
def labelFound (wanted : List String) (labels : List LabelObject) : Bool :=
  wanted.any (fun wantedLabel => labels.any (fun targetLabel => targetLabel.Name == wantedLabel))

/-- check.go, Check lines 109-121: the loop accumulating FilterPath results
over every configured path pattern (`wanted = append(wanted, w...)`),
aborting on the first error. -/
def filterPathList (files : List String) : List String → Except String (List String)
  | [] => .ok []
  | pattern :: patterns =>
    match FilterPath files pattern with
    | .error e => .error e
    | .ok w =>
      match filterPathList files patterns with
      | .error e => .error e
      | .ok rest => .ok (w ++ rest)

/-- check.go, Check lines 124-135: the loop narrowing the file list with
FilterIgnorePath for every configured ignore pattern, aborting on the
first error. -/
def filterIgnorePathList : List String → List String → Except String (List String)
  | wanted, [] => .ok wanted
  | wanted, pattern :: patterns =>
    match FilterIgnorePath wanted pattern with
    | .error e => .error e
    | .ok w => filterIgnorePathList w patterns

/-- check.go, Check lines 123-135: the ignore-paths block of the loop body;
skips the version (`none`) when every file is ignored. -/
def processIgnore (source : Source) (p : PullRequest) (files : List String) :
    Except String (Option Version) :=
  if source.IgnorePaths.length > 0 then
    match filterIgnorePathList files source.IgnorePaths with
    | .error e => .error ("ignore path match failed: " ++ e)
    | .ok wanted =>
      if wanted.length = 0 then .ok none else .ok (some (NewVersion p))
  else .ok (some (NewVersion p))

/-- check.go, Check lines 38-136: the body of the candidate loop — the filter
chain for one pull request.  `.ok none` models `continue` (the candidate is
rejected), `.ok (some v)` models `response = append(response, NewVersion(p))`,
and `.error e` models an early `return nil, err` from Check. -/
def processPull (source : Source) (version : Version) (manager : Github) (p : PullRequest) :
    Except String (Option Version) :=
  if !source.DisableCISkip && ContainsSkipCI p.Title then .ok none
  else if !source.DisableCISkip && ContainsSkipCI p.Tip.Message then .ok none
  else if source.BaseBranch ≠ "" ∧ p.BaseRefName ≠ source.BaseBranch then .ok none
  else if source.StatusContext = "" ∧ ¬(version.CommittedDate < p.Tip.CommittedDate) then .ok none
  else if source.StatusContext ≠ "" ∧ p.HasStatus then .ok none
  else if source.Labels.length > 0 ∧ labelFound source.Labels p.Labels = false then .ok none
  else if source.DisableForks ∧ p.IsCrossRepository then .ok none
  else if source.IgnoreDrafts ∧ p.IsDraft then .ok none
  else if p.ApprovedReviewCount < source.RequiredReviewApprovals then .ok none
  else if source.Paths.length > 0 ∨ source.IgnorePaths.length > 0 then
    match manager.listModifiedFiles p.Number with
    | .error e => .error ("failed to list modified files: " ++ e)
    | .ok files =>
      if source.Paths.length > 0 then
        match filterPathList files source.Paths with
        | .error e => .error ("path match failed: " ++ e)
        | .ok wanted =>
          if wanted.length = 0 then .ok none
          else processIgnore source p files
      else processIgnore source p files
  else .ok (some (NewVersion p))

/-- check.go, Check lines 37-137: the `Loop` over candidates, threading the
accumulated response; an error inside the body returns `nil` (here `[]`)
together with the wrapped message, exactly as the early returns do. -/
def checkLoop (source : Source) (version : Version) (manager : Github) :
    List PullRequest → List Version → List Version × Option String
  | [], response => (response, none)
  | p :: pulls, response =>
    match processPull source version manager p with
    | .error e => ([], some e)
    | .ok none => checkLoop source version manager pulls response
    | .ok (some v) => checkLoop source version manager pulls (response ++ [v])

/-- check.go, `sort.Sort(response)` with `CheckResponse.Less(i, j) =
r[j].CommittedDate.After(r[i].CommittedDate)`: insertion of one element
into a list sorted ascending by CommittedDate. -/
def insertVersion (v : Version) : List Version → List Version
  | [] => [v]
  | w :: ws =>
    if v.CommittedDate < w.CommittedDate then v :: w :: ws
    else w :: insertVersion v ws

/-- check.go, `sort.Sort(response)`: sorts the response ascending by
CommittedDate (the postcondition of sort.Sort for CheckResponse.Less). -/
def sortResponse : List Version → List Version
  | [] => []
  | v :: vs => insertVersion v (sortResponse vs)

/-- check.go, Check lines 142-149: the two sequential collapsing ifs after
the sort — return the old version when nothing is new, or only the latest
entry (`response[len(response)-1]`) on a first run. -/
def collapseResponse (version : Version) (response : List Version) : List Version :=
  let r1 := if response.length = 0 ∧ version.PR ≠ "" then response ++ [version] else response
  if r1.length ≠ 0 ∧ version.PR = "" then [r1.getLast!] else r1

/-- check.go, Check: the entry point.  The Go pair `(CheckResponse, error)`
is kept as `List Version × Option String`: every error site in the source
returns a nil response, modelled as `([], some msg)`.  The always-true
`&uncheckedParameters != nil` guard around SetPaginationParameters is
dropped. -/
def Check (request : CheckRequest) (manager : Github) : List Version × Option String :=
  let checkedParameters := SetPaginationParameters request.Parameters
  match manager.listPullRequests (filterStates request.Source) checkedParameters with
  | .error e => ([], some ("failed to get last commits: " ++ e))
  | .ok pulls =>
    match checkLoop request.Source request.Version manager pulls [] with
    | (_, some e) => ([], some e)
    | (response, none) => (collapseResponse request.Version (sortResponse response), none)

/-!
Concrete fixtures shared by the witnesses and counterexamples below.
-/

/-- A pull-request fixture with the given number, lifecycle state and dates. -/
def prFixture (n : Int) (state : String) (tip closedAt mergedAt : Int) : PullRequest :=
  { ID := "id", Number := n, Title := "a title", URL := "", BaseRefName := "master",
    HeadRefName := "", IsCrossRepository := false, IsDraft := false, State := state,
    ClosedAt := closedAt, MergedAt := mergedAt,
    Tip := { ID := "", OID := "abc", CommittedDate := tip, Message := "a message" },
    ApprovedReviewCount := 0, Labels := [], HasStatus := false }

/-- A configuration fixture passing every filter except where overridden;
DisableCISkip is set so the marker filters never fire. -/
def sourceFixture : Source :=
  { Paths := [], IgnorePaths := [], DisableCISkip := true, DisableForks := false,
    IgnoreDrafts := false, BaseBranch := "", RequiredReviewApprovals := 0,
    Labels := [], States := [], StatusContext := "" }

/-- A previous-version fixture with the given PR identity and date. -/
def versionFixture (pr : String) (date : Int) : Version :=
  { PR := pr, Commit := "def", CommittedDate := date, ApprovedReviewCount := "0",
    State := "OPEN" }

/-- A collaborator fixture returning fixed pull requests and no changed files. -/
def managerFixture (pulls : List PullRequest) : Github :=
  { listPullRequests := fun _ _ => .ok pulls, listModifiedFiles := fun _ => .ok [] }

/-- A collaborator fixture whose candidate fetch fails. -/
def managerFailFixture : Github :=
  { listPullRequests := fun _ _ => .error "boom", listModifiedFiles := fun _ => .ok [] }

/-!
Claim theorems.
-/

/-- C5: for all strings parent and child, IsInsidePath parent child is true
iff child equals parent or parent with a trailing path separator (ensured)
is a string prefix of child; with the four documented examples. -/
theorem isInsidePath_spec :
    (∀ parent child : String, IsInsidePath parent child = true ↔
      (child = parent ∨
        List.isPrefixOf
          (if parent.data.getLast? = some '/' then parent else parent ++ "/").data
          child.data = true)) ∧
    IsInsidePath "foo/bar" "foo/bar" = true ∧
    IsInsidePath "foo/bar" "foo/barbar" = false ∧
    IsInsidePath "foo/" "foo" = false ∧
    IsInsidePath "foo/" "foo/bar" = true := by
  refine ⟨fun parent child => ?_, by decide, by decide, by decide, by decide⟩
  rw [IsInsidePath]
  by_cases h : parent = child
  · simp [h]
  · simp only [h, if_false]
    constructor
    · intro hpre
      exact Or.inr hpre
    · intro hor
      rcases hor with h1 | h2
      · exact absurd h1.symm h
      · exact h2

/-- C8: the effective date of a pull request equals the tip commit's
committed date, except the closed-at date when the state is CLOSED and the
merged-at date when it is MERGED; NewVersion carries exactly this date. -/
theorem updatedDate_spec (p : PullRequest) :
    (p.State = "CLOSED" → p.UpdatedDate = p.ClosedAt) ∧
    (p.State = "MERGED" → p.UpdatedDate = p.MergedAt) ∧
    (p.State ≠ "CLOSED" → p.State ≠ "MERGED" → p.UpdatedDate = p.Tip.CommittedDate) ∧
    (NewVersion p).CommittedDate = p.UpdatedDate := by
  refine ⟨fun hc => ?_, fun hm => ?_, fun hnc hnm => ?_, rfl⟩
  · simp [PullRequest.UpdatedDate, hc]
  · have : p.State ≠ "CLOSED" := by rw [hm]; decide
    simp [PullRequest.UpdatedDate, this, hm]
  · simp [PullRequest.UpdatedDate, hnc, hnm]

/-- C8 witness: a closed pull request with tip date 4 and closed-at 8 gets
effective date 8, carried into its Version. -/
theorem updatedDate_spec_witness :
    (prFixture 10 "CLOSED" 4 8 0).UpdatedDate = 8 ∧
    (NewVersion (prFixture 10 "CLOSED" 4 8 0)).CommittedDate = 8 := by
  have h := updatedDate_spec (prFixture 10 "CLOSED" 4 8 0)
  have h1 := h.1 rfl
  have h2 := h.2.2.2
  exact ⟨by rw [h1]; rfl, by rw [h2, h1]; rfl⟩

/-- C3: the collapse step of Check returns exactly the previous version when
there are no survivors and a previous version was supplied; only the last
(chronologically latest, the list being sorted) survivor when there are
survivors and no previous version; and the survivor list unchanged
otherwise. -/
theorem collapseResponse_cases (version : Version) (response : List Version) :
    (response = [] → version.PR ≠ "" → collapseResponse version response = [version]) ∧
    (response ≠ [] → version.PR = "" →
      collapseResponse version response = [response.getLast!]) ∧
    (¬(response = [] ∧ version.PR ≠ "") → ¬(response ≠ [] ∧ version.PR = "") →
      collapseResponse version response = response) := by
  refine ⟨fun he hpr => ?_, fun hne hpr => ?_, fun h1 h2 => ?_⟩
  · subst he
    simp [collapseResponse, hpr]
  · have hl : response.length ≠ 0 := fun hc => hne (List.length_eq_zero.mp hc)
    simp [collapseResponse, hpr, hl, List.length_eq_zero.not.mpr hne]
  · by_cases he : response = []
    · have hpr : version.PR = "" := by
        by_contra hpr
        exact h1 ⟨he, hpr⟩
      subst he
      simp [collapseResponse, hpr]
    · have hpr : version.PR ≠ "" := fun hpr => h2 ⟨he, hpr⟩
      have hl : response.length ≠ 0 := fun hc => he (List.length_eq_zero.mp hc)
      simp [collapseResponse, hl, hpr]

/-- C3 witness: the three collapse cases at concrete inputs — previous kept
when no survivors, latest survivor kept on a first run, survivor list
unchanged in the incremental case. -/
theorem collapseResponse_cases_witness :
    collapseResponse (versionFixture "7" 3) [] = [versionFixture "7" 3] ∧
    collapseResponse (versionFixture "" 0) [versionFixture "1" 1, versionFixture "2" 2]
      = [versionFixture "2" 2] ∧
    collapseResponse (versionFixture "7" 3) [versionFixture "1" 1, versionFixture "2" 2]
      = [versionFixture "1" 1, versionFixture "2" 2] := by
  refine ⟨(collapseResponse_cases _ _).1 rfl (by decide), ?_, ?_⟩
  · have h := (collapseResponse_cases (versionFixture "" 0)
      [versionFixture "1" 1, versionFixture "2" 2]).2.1 (by decide) rfl
    simpa using h
  · exact (collapseResponse_cases _ _).2.2 (by simp [versionFixture]) (by simp [versionFixture])

/-- C2 counterexample: normalization does not keep every field within its
documented bounds.  With raw PageSize 150, MaxPRs 10, MaxRetries 11 and
DelayBetweenPages 20000 the normalizer succeeds yet returns PageSize 100
above MaxPRs 10, MaxRetries 11 above 10 and DelayBetweenPages 20000 above
10000; with raw PageSize 0 and MaxPRs 10 the default PageSize 50 exceeds
MaxPRs; a negative raw PageSize is passed through below 1. -/
theorem validatePage_bounds_cex :
    ((ValidatePageParameters
        { PageSize := 150, MaxPRs := 10, SortField := "", SortDirection := "",
          MaxRetries := 11, DelayBetweenPages := 20000 }).2 = none ∧
      (ValidatePageParameters
        { PageSize := 150, MaxPRs := 10, SortField := "", SortDirection := "",
          MaxRetries := 11, DelayBetweenPages := 20000 }).1.MaxRetries > 10 ∧
      (ValidatePageParameters
        { PageSize := 150, MaxPRs := 10, SortField := "", SortDirection := "",
          MaxRetries := 11, DelayBetweenPages := 20000 }).1.DelayBetweenPages > 10000 ∧
      (ValidatePageParameters
        { PageSize := 150, MaxPRs := 10, SortField := "", SortDirection := "",
          MaxRetries := 11, DelayBetweenPages := 20000 }).1.PageSize >
      (ValidatePageParameters
        { PageSize := 150, MaxPRs := 10, SortField := "", SortDirection := "",
          MaxRetries := 11, DelayBetweenPages := 20000 }).1.MaxPRs) ∧
    ((ValidatePageParameters
        { PageSize := 0, MaxPRs := 10, SortField := "", SortDirection := "",
          MaxRetries := 0, DelayBetweenPages := 0 }).2 = none ∧
      (ValidatePageParameters
        { PageSize := 0, MaxPRs := 10, SortField := "", SortDirection := "",
          MaxRetries := 0, DelayBetweenPages := 0 }).1.PageSize >
      (ValidatePageParameters
        { PageSize := 0, MaxPRs := 10, SortField := "", SortDirection := "",
          MaxRetries := 0, DelayBetweenPages := 0 }).1.MaxPRs) ∧
    ((ValidatePageParameters
        { PageSize := -5, MaxPRs := 0, SortField := "", SortDirection := "",
          MaxRetries := 0, DelayBetweenPages := 0 }).2 = none ∧
      (ValidatePageParameters
        { PageSize := -5, MaxPRs := 0, SortField := "", SortDirection := "",
          MaxRetries := 0, DelayBetweenPages := 0 }).1.PageSize < 1) := by
  decide

/-- C2 amended: on success, normalized MaxPRs always lies in 1..2000; a
nonnegative raw PageSize is normalized into 1..100; the normalized PageSize
stays at or below the normalized MaxPRs provided the raw PageSize was in
1..100; and MaxRetries (resp. DelayBetweenPages) lies in 1..10 (resp.
1..10000) provided the raw value was in 0..10 (resp. 0..10000) — values
above those maxima or negative are passed through unclamped. -/
theorem validatePage_bounds (p q : Page) (h : ValidatePageParameters p = (q, none)) :
    (1 ≤ q.MaxPRs ∧ q.MaxPRs ≤ 2000) ∧
    (0 ≤ p.PageSize → 1 ≤ q.PageSize ∧ q.PageSize ≤ 100) ∧
    (1 ≤ p.PageSize → p.PageSize ≤ 100 → q.PageSize ≤ q.MaxPRs) ∧
    (0 ≤ p.MaxRetries → p.MaxRetries ≤ 10 → 1 ≤ q.MaxRetries ∧ q.MaxRetries ≤ 10) ∧
    (0 ≤ p.DelayBetweenPages → p.DelayBetweenPages ≤ 10000 →
      1 ≤ q.DelayBetweenPages ∧ q.DelayBetweenPages ≤ 10000) := by
  rw [ValidatePageParameters] at h
  split at h
  · simp at h
  · simp only [Prod.mk.injEq] at h
    obtain ⟨hq, -⟩ := h
    subst hq
    simp only
    refine ⟨?_, fun hps => ?_, fun hps1 hps2 => ?_, fun hr1 hr2 => ?_, fun hd1 hd2 => ?_⟩ <;>
      (split_ifs <;> omega)

/-- C2 witness: at raw PageSize 20, MaxPRs 30, MaxRetries 5 and
DelayBetweenPages 100 every amended bound holds of the normalized output. -/
theorem validatePage_bounds_witness :
    (1 ≤ (30 : Int) ∧ (30 : Int) ≤ 2000) ∧
    (1 ≤ (20 : Int) ∧ (20 : Int) ≤ 100) ∧
    ((20 : Int) ≤ 30) ∧
    (1 ≤ (5 : Int) ∧ (5 : Int) ≤ 10) ∧
    (1 ≤ (100 : Int) ∧ (100 : Int) ≤ 10000) := by
  have h := validatePage_bounds
    { PageSize := 20, MaxPRs := 30, SortField := "", SortDirection := "",
      MaxRetries := 5, DelayBetweenPages := 100 }
    { PageSize := 20, MaxPRs := 30, SortField := "UPDATED_AT", SortDirection := "DESC",
      MaxRetries := 5, DelayBetweenPages := 100 }
    (by decide)
  exact ⟨h.1, h.2.1 (by decide), h.2.2.1 (by decide) (by decide),
    h.2.2.2.1 (by decide) (by decide), h.2.2.2.2 (by decide) (by decide)⟩

/-- C4: a page configuration with a sort field outside UPDATED_AT,
CREATED_AT, COMMENTS, empty, or a sort direction outside ASC, DESC, empty,
makes normalization report an error and return the zero Page, with no
partially normalized result. -/
theorem validatePage_invalid_enum (p : Page)
    (h : p.SortField ∉ (["UPDATED_AT", "CREATED_AT", "COMMENTS", ""] : List String) ∨
         p.SortDirection ∉ (["DESC", "ASC", ""] : List String)) :
    ∃ e, ValidatePageParameters p = (emptyPage, some e) := by
  rw [ValidatePageParameters]
  split
  · rename_i e heq
    exact ⟨e, rfl⟩
  · rename_i heq
    exfalso
    split at heq <;> simp_all

/-- C4 witness: an invalid sort field yields the zero Page and an error. -/
theorem validatePage_invalid_enum_witness :
    ∃ e, ValidatePageParameters
      { PageSize := 0, MaxPRs := 0, SortField := "_INVALID_SORT_FIELD",
        SortDirection := "", MaxRetries := 0, DelayBetweenPages := 0 }
      = (emptyPage, some e) :=
  validatePage_invalid_enum _ (by decide)

/-- FilterPath computes the sublist of files selected by the pattern
(glob match or inside-path), provided matching succeeds on every file. -/
theorem filterPath_eq_filter {files : List String} {pattern : String}
    (h : ∀ f ∈ files, (filepathMatch pattern f).isSome) :
    FilterPath files pattern = .ok (files.filter (fun f =>
      (filepathMatch pattern f).getD false || IsInsidePath pattern f)) := by
  induction files with
  | nil => rfl
  | cons f fs ih =>
    obtain ⟨m, hm⟩ := Option.isSome_iff_exists.mp (h f (by simp))
    rw [FilterPath, hm, ih (fun g hg => h g (by simp [hg]))]
    simp [hm, List.filter_cons]

/-- FilterIgnorePath computes the complementary sublist, provided matching
succeeds on every file. -/
theorem filterIgnorePath_eq_filter {files : List String} {pattern : String}
    (h : ∀ f ∈ files, (filepathMatch pattern f).isSome) :
    FilterIgnorePath files pattern = .ok (files.filter (fun f =>
      !((filepathMatch pattern f).getD false || IsInsidePath pattern f))) := by
  induction files with
  | nil => rfl
  | cons f fs ih =>
    obtain ⟨m, hm⟩ := Option.isSome_iff_exists.mp (h f (by simp))
    rw [FilterIgnorePath, hm, ih (fun g hg => h g (by simp [hg]))]
    cases m <;> cases hin : IsInsidePath pattern f <;>
      simp [hm, hin, List.filter_cons]

/-- Counting an element across the two complementary filters of a list gives
its count in the list. -/
theorem count_filter_add (l : List String) (q : String → Bool) (f : String) :
    (l.filter q).count f + (l.filter (fun x => !q x)).count f = l.count f := by
  induction l with
  | nil => simp
  | cons x xs ih =>
    cases hq : q x <;> by_cases hxf : (x == f) = true <;>
      simp [List.filter_cons, hq, List.count_cons, hxf] <;>
      omega

/-- C10: when glob matching succeeds on every file, FilterPath and
FilterIgnorePath succeed and partition the file list — both results are
sublists of the input (hence preserve its relative order), and every file
occurs in the two results together exactly as often as in the input. -/
theorem filterPath_partition (files : List String) (pattern : String)
    (h : ∀ f ∈ files, (filepathMatch pattern f).isSome) :
    ∃ a b, FilterPath files pattern = .ok a ∧ FilterIgnorePath files pattern = .ok b ∧
      a.Sublist files ∧ b.Sublist files ∧
      ∀ f, a.count f + b.count f = files.count f := by
  refine ⟨_, _, filterPath_eq_filter h, filterIgnorePath_eq_filter h,
    List.filter_sublist files, List.filter_sublist files, fun f => ?_⟩
  exact count_filter_add files _ f

/-- C10 witness: the partition at a concrete file list and pattern. -/
theorem filterPath_partition_witness :
    (∀ f ∈ (["file1.txt", "test/file2.txt"] : List String),
      (filepathMatch "*.txt" f).isSome) ∧
    ∃ a b, FilterPath ["file1.txt", "test/file2.txt"] "*.txt" = .ok a ∧
      FilterIgnorePath ["file1.txt", "test/file2.txt"] "*.txt" = .ok b ∧
      a.Sublist ["file1.txt", "test/file2.txt"] ∧
      b.Sublist ["file1.txt", "test/file2.txt"] ∧
      ∀ f, a.count f + b.count f = (["file1.txt", "test/file2.txt"] : List String).count f := by
  have hm1 : filepathMatch "*.txt" "file1.txt" = some true := by
    simp [filepathMatch, matchLoop, scanChunk, scanChunkBody, matchChunk, starLoop,
      matchRanges, getEsc]
  have hm2 : filepathMatch "*.txt" "test/file2.txt" = some false := by
    simp [filepathMatch, matchLoop, scanChunk, scanChunkBody, matchChunk, starLoop,
      matchRanges, getEsc]
  have h : ∀ f ∈ (["file1.txt", "test/file2.txt"] : List String),
      (filepathMatch "*.txt" f).isSome := by
    intro f hf
    simp only [List.mem_cons, List.not_mem_nil, or_false] at hf
    rcases hf with hf | hf
    · rw [hf, hm1]; rfl
    · rw [hf, hm2]; rfl
  exact ⟨h, filterPath_partition _ _ h⟩

/-- The nested label loops find a label iff some candidate label name is
among the wanted labels. -/
theorem labelFound_iff (wanted : List String) (labels : List LabelObject) :
    labelFound wanted labels = true ↔ ∃ l ∈ labels, l.Name ∈ wanted := by
  simp only [labelFound, List.any_eq_true, beq_iff_eq]
  constructor
  · rintro ⟨w, hw, t, ht, hn⟩
    exact ⟨t, ht, hn ▸ hw⟩
  · rintro ⟨t, ht, hw⟩
    exact ⟨t.Name, hw, t, ht, rfl⟩

/-- C9: with a non-empty required-label list (and every other filter passing),
the filter chain accepts a candidate iff some candidate label name exactly
matches some required label — a non-empty intersection, not a subset test —
and rejects it iff the intersection is empty. -/
theorem labelFilter_spec (source : Source) (version : Version) (manager : Github)
    (p : PullRequest)
    (hcs : source.DisableCISkip = true)
    (hbb : source.BaseBranch = "")
    (hsc : source.StatusContext = "")
    (hdate : version.CommittedDate < p.Tip.CommittedDate)
    (hlab : source.Labels ≠ [])
    (hforks : source.DisableForks = false)
    (hdrafts : source.IgnoreDrafts = false)
    (hrev : source.RequiredReviewApprovals ≤ p.ApprovedReviewCount)
    (hpaths : source.Paths = []) (hipaths : source.IgnorePaths = []) :
    (processPull source version manager p = .ok (some (NewVersion p)) ↔
      ∃ l ∈ p.Labels, l.Name ∈ source.Labels) ∧
    (processPull source version manager p = .ok none ↔
      ¬∃ l ∈ p.Labels, l.Name ∈ source.Labels) := by
  have hnrev : ¬(p.ApprovedReviewCount < source.RequiredReviewApprovals) :=
    not_lt.mpr hrev
  have hlen : 0 < source.Labels.length := List.length_pos.mpr hlab
  have hred : processPull source version manager p =
      if labelFound source.Labels p.Labels = false then .ok none
      else .ok (some (NewVersion p)) := by
    rw [processPull]
    simp [hcs, hbb, hsc, hdate, hlen, hforks, hdrafts, hnrev, hpaths, hipaths]
  rw [hred, ← labelFound_iff source.Labels p.Labels]
  cases hlf : labelFound source.Labels p.Labels <;> simp [hlf]

/-- C9 witness: a candidate carrying one of two required labels is accepted;
the match of a single label suffices. -/
theorem labelFilter_spec_witness :
    processPull
      { sourceFixture with Labels := ["enhancement", "wontfix"] }
      (versionFixture "7" 3) (managerFixture [])
      { prFixture 8 "OPEN" 9 0 0 with Labels := [{ Name := "enhancement" }] }
      = .ok (some (NewVersion
        { prFixture 8 "OPEN" 9 0 0 with Labels := [{ Name := "enhancement" }] })) :=
  (labelFilter_spec _ _ _ _ rfl rfl rfl (by decide) (by decide) rfl rfl (by decide)
    rfl rfl).1.mpr (by decide)

/-- C1 counterexample: a merged pull request with tip commit date 1,
merged-at (hence effective) date 5, against a previous version of date 3:
its effective date is strictly after the previous version's, yet the
staleness filter rejects it, because the code compares the tip commit's
committed date, not the effective date. -/
theorem staleness_cex :
    (prFixture 4 "MERGED" 1 0 5).UpdatedDate = 5 ∧
    (versionFixture "7" 3).CommittedDate = 3 ∧
    processPull sourceFixture (versionFixture "7" 3) (managerFixture [])
      (prFixture 4 "MERGED" 1 0 5) = .ok none := by
  refine ⟨rfl, rfl, ?_⟩
  rfl

/-- C1 amended: with no status-context configured (and every other filter
passing), the filter chain rejects a candidate iff the candidate's tip
commit committed date — not the derived effective date — is not strictly
after the previous version's date, and accepts it otherwise. -/
theorem staleness_filter (source : Source) (version : Version) (manager : Github)
    (p : PullRequest)
    (hsc : source.StatusContext = "")
    (hcs : source.DisableCISkip = true)
    (hbb : source.BaseBranch = "")
    (hlab : source.Labels = [])
    (hforks : source.DisableForks = false)
    (hdrafts : source.IgnoreDrafts = false)
    (hrev : source.RequiredReviewApprovals ≤ p.ApprovedReviewCount)
    (hpaths : source.Paths = []) (hipaths : source.IgnorePaths = []) :
    (processPull source version manager p = .ok none ↔
      p.Tip.CommittedDate ≤ version.CommittedDate) ∧
    (processPull source version manager p = .ok (some (NewVersion p)) ↔
      version.CommittedDate < p.Tip.CommittedDate) := by
  have hnrev : ¬(p.ApprovedReviewCount < source.RequiredReviewApprovals) :=
    not_lt.mpr hrev
  have hred : processPull source version manager p =
      if version.CommittedDate < p.Tip.CommittedDate then .ok (some (NewVersion p))
      else .ok none := by
    rw [processPull]
    by_cases hd : version.CommittedDate < p.Tip.CommittedDate <;>
      simp [hcs, hbb, hsc, hlab, hforks, hdrafts, hnrev, hpaths, hipaths, hd]
  rw [hred]
  by_cases hd : version.CommittedDate < p.Tip.CommittedDate
  · simp [hd, not_le.mpr hd]
  · simp [hd, not_lt.mp hd]

/-- C1 witness: the amended staleness rule at concrete inputs — a tip commit
date of 1 against a previous version date of 3 is rejected. -/
theorem staleness_filter_witness :
    processPull sourceFixture (versionFixture "9" 3) (managerFixture [])
      (prFixture 5 "OPEN" 1 0 0) = .ok none :=
  (staleness_filter sourceFixture (versionFixture "9" 3) (managerFixture [])
    (prFixture 5 "OPEN" 1 0 0) rfl rfl rfl rfl rfl rfl (by decide) rfl rfl).1.mpr
    (by decide)

/-- The head of an insertion is either the inserted element or the old head. -/
theorem insertVersion_head (v : Version) (l : List Version) :
    (insertVersion v l).head? = some v ∨ (insertVersion v l).head? = l.head? := by
  cases l with
  | nil => simp [insertVersion]
  | cons w ws =>
    rw [insertVersion]
    split
    · simp
    · simp

/-- Insertion preserves ascending order by CommittedDate. -/
theorem chain__insertVersion (v : Version) (l : List Version)
    (h : List.Chain' (fun a b => a.CommittedDate ≤ b.CommittedDate) l) :
    List.Chain' (fun a b => a.CommittedDate ≤ b.CommittedDate) (insertVersion v l) := by
  induction l with
  | nil => simp [insertVersion]
  | cons w ws ih =>
    rw [insertVersion]
    split
    · rename_i hvw
      exact List.chain'_cons.mpr ⟨le_of_lt hvw, h⟩
    · rename_i hvw
      have hwv : w.CommittedDate ≤ v.CommittedDate := le_of_not_lt hvw
      have hins := ih (List.Chain'.tail h)
      refine List.chain'_cons'.mpr ⟨?_, hins⟩
      intro y hy
      rcases insertVersion_head v ws with hh | hh
      · rw [hh] at hy
        simp only [Option.mem_def, Option.some.injEq] at hy
        subst hy
        exact hwv
      · rw [hh] at hy
        exact (List.chain'_cons'.mp h).1 y hy

/-- The sort step of Check returns a list ascending by CommittedDate. -/
theorem chain__sortResponse (l : List Version) :
    List.Chain' (fun a b => a.CommittedDate ≤ b.CommittedDate) (sortResponse l) := by
  induction l with
  | nil => simp [sortResponse]
  | cons v vs ih => exact chain__insertVersion v _ ih

/-- The collapse step of Check preserves ascending order by CommittedDate. -/
theorem chain__collapseResponse (version : Version) (l : List Version)
    (h : List.Chain' (fun a b => a.CommittedDate ≤ b.CommittedDate) l) :
    List.Chain' (fun a b => a.CommittedDate ≤ b.CommittedDate)
      (collapseResponse version l) := by
  by_cases he : l = [] <;> by_cases hpr : version.PR = "" <;>
    simp_all [collapseResponse]

/-- C6: whenever Check succeeds, the returned version list is ascending by
effective date — each adjacent pair is ordered by CommittedDate. -/
theorem check_sorted (request : CheckRequest) (manager : Github) (res : List Version)
    (h : Check request manager = (res, none)) :
    List.Chain' (fun a b => a.CommittedDate ≤ b.CommittedDate) res := by
  rw [Check] at h
  split at h
  · simp at h
  · split at h
    · simp at h
    · rename_i response heq
      simp only [Prod.mk.injEq] at h
      obtain ⟨hres, -⟩ := h
      subst hres
      exact chain__collapseResponse _ _ (chain__sortResponse _)

/-- C6 witness: a concrete successful Check run returning two versions in
ascending order of effective date. -/
theorem check_sorted_witness :
    List.Chain' (fun a b => a.CommittedDate ≤ b.CommittedDate)
      [NewVersion (prFixture 3 "OPEN" 7 0 0), NewVersion (prFixture 2 "OPEN" 9 0 0)] :=
  check_sorted
    { Source := sourceFixture, Version := versionFixture "1" 5, Parameters := emptyPage }
    (managerFixture [prFixture 1 "OPEN" 5 0 0, prFixture 2 "OPEN" 9 0 0,
      prFixture 3 "OPEN" 7 0 0])
    [NewVersion (prFixture 3 "OPEN" 7 0 0), NewVersion (prFixture 2 "OPEN" 9 0 0)]
    (by rfl)

/-- Every error of the ignore-paths block carries its wrapping context. -/
theorem processIgnore_error_form {source : Source} {p : PullRequest}
    {files : List String} {e : String}
    (h : processIgnore source p files = .error e) :
    ∃ s, e = "ignore path match failed: " ++ s := by
  rw [processIgnore] at h
  split at h
  · split at h
    · simp only [Except.error.injEq] at h
      exact ⟨_, h.symm⟩
    · split at h <;> simp at h
  · simp at h

/-- Every error of the filter chain for one candidate carries one of the
three wrapping contexts of the loop body. -/
theorem processPull_error_form {source : Source} {version : Version}
    {manager : Github} {p : PullRequest} {e : String}
    (h : processPull source version manager p = .error e) :
    (∃ s, e = "failed to list modified files: " ++ s) ∨
    (∃ s, e = "path match failed: " ++ s) ∨
    (∃ s, e = "ignore path match failed: " ++ s) := by
  rw [processPull] at h
  by_cases c1 : !source.DisableCISkip && ContainsSkipCI p.Title
  · rw [if_pos c1] at h; exact Except.noConfusion h
  rw [if_neg c1] at h
  by_cases c2 : !source.DisableCISkip && ContainsSkipCI p.Tip.Message
  · rw [if_pos c2] at h; exact Except.noConfusion h
  rw [if_neg c2] at h
  by_cases c3 : source.BaseBranch ≠ "" ∧ p.BaseRefName ≠ source.BaseBranch
  · rw [if_pos c3] at h; exact Except.noConfusion h
  rw [if_neg c3] at h
  by_cases c4 : source.StatusContext = "" ∧ ¬(version.CommittedDate < p.Tip.CommittedDate)
  · rw [if_pos c4] at h; exact Except.noConfusion h
  rw [if_neg c4] at h
  by_cases c5 : source.StatusContext ≠ "" ∧ p.HasStatus
  · rw [if_pos c5] at h; exact Except.noConfusion h
  rw [if_neg c5] at h
  by_cases c6 : source.Labels.length > 0 ∧ labelFound source.Labels p.Labels = false
  · rw [if_pos c6] at h; exact Except.noConfusion h
  rw [if_neg c6] at h
  by_cases c7 : source.DisableForks ∧ p.IsCrossRepository
  · rw [if_pos c7] at h; exact Except.noConfusion h
  rw [if_neg c7] at h
  by_cases c8 : source.IgnoreDrafts ∧ p.IsDraft
  · rw [if_pos c8] at h; exact Except.noConfusion h
  rw [if_neg c8] at h
  by_cases c9 : p.ApprovedReviewCount < source.RequiredReviewApprovals
  · rw [if_pos c9] at h; exact Except.noConfusion h
  rw [if_neg c9] at h
  by_cases c10 : source.Paths.length > 0 ∨ source.IgnorePaths.length > 0
  swap
  · rw [if_neg c10] at h; exact Except.noConfusion h
  rw [if_pos c10] at h
  rcases hLM : manager.listModifiedFiles p.Number with e1 | files <;> rw [hLM] at h
  · exact Or.inl ⟨e1, (Except.error.inj h).symm⟩
  · have h2 : (if source.Paths.length > 0 then
        (match filterPathList files source.Paths with
          | Except.error e2 => Except.error ("path match failed: " ++ e2)
          | Except.ok wanted =>
            if wanted.length = 0 then (Except.ok none : Except String (Option Version))
            else processIgnore source p files)
        else processIgnore source p files) = Except.error e := h
    by_cases c11 : source.Paths.length > 0
    · rw [if_pos c11] at h2
      rcases hFP : filterPathList files source.Paths with e2 | wanted <;> rw [hFP] at h2
      · exact Or.inr (Or.inl ⟨e2, (Except.error.inj h2).symm⟩)
      · have h3 : (if wanted.length = 0 then (Except.ok none : Except String (Option Version))
            else processIgnore source p files) = Except.error e := h2
        by_cases c12 : wanted.length = 0
        · rw [if_pos c12] at h3; exact Except.noConfusion h3
        · rw [if_neg c12] at h3
          exact Or.inr (Or.inr (processIgnore_error_form h3))
    · rw [if_neg c11] at h2
      exact Or.inr (Or.inr (processIgnore_error_form h2))

/-- An error leaving the candidate loop discards the accumulated response and
carries one of the loop body's wrapping contexts. -/
theorem checkLoop_error_form {source : Source} {version : Version} {manager : Github}
    {pulls : List PullRequest} {acc res : List Version} {err : String}
    (h : checkLoop source version manager pulls acc = (res, some err)) :
    res = [] ∧
    ((∃ s, err = "failed to list modified files: " ++ s) ∨
     (∃ s, err = "path match failed: " ++ s) ∨
     (∃ s, err = "ignore path match failed: " ++ s)) := by
  induction pulls generalizing acc with
  | nil => simp [checkLoop] at h
  | cons p ps ih =>
    simp only [checkLoop] at h
    split at h
    · rename_i e heq
      simp only [Prod.mk.injEq, Option.some.injEq] at h
      obtain ⟨h1, h2⟩ := h
      subst h2
      exact ⟨h1.symm, processPull_error_form heq⟩
    · exact ih h
    · exact ih h

/-- C7: a failing candidate-list fetch makes Check fail with the
"failed to get last commits" wrap, and every failing Check returns the
empty response together with one of the four wrapping contexts (candidate
fetch, changed-file fetch, path match, ignore-path match) — never a partial
survivor list. -/
theorem check_error_spec (request : CheckRequest) (manager : Github) :
    (∀ e, manager.listPullRequests (filterStates request.Source)
        (SetPaginationParameters request.Parameters) = .error e →
      Check request manager = ([], some ("failed to get last commits: " ++ e))) ∧
    (∀ res err, Check request manager = (res, some err) →
      res = [] ∧
      ((∃ s, err = "failed to get last commits: " ++ s) ∨
       (∃ s, err = "failed to list modified files: " ++ s) ∨
       (∃ s, err = "path match failed: " ++ s) ∨
       (∃ s, err = "ignore path match failed: " ++ s))) := by
  constructor
  · intro e he
    rw [Check]
    simp only [he]
  · intro res err h
    rw [Check] at h
    split at h
    · rename_i e heq
      simp only [Prod.mk.injEq, Option.some.injEq] at h
      obtain ⟨h1, h2⟩ := h
      exact ⟨h1.symm, Or.inl ⟨e, h2.symm⟩⟩
    · rename_i pulls heq
      split at h
      · rename_i fst e heq2
        simp only [Prod.mk.injEq, Option.some.injEq] at h
        obtain ⟨h1, h2⟩ := h
        subst h2
        obtain ⟨-, hforms⟩ := checkLoop_error_form heq2
        exact ⟨h1.symm, Or.inr hforms⟩
      · simp at h

/-- C7 witness: a failing candidate-list fetch yields the empty response and
the wrapped error. -/
theorem check_error_spec_witness :
    Check
      { Source := sourceFixture, Version := versionFixture "" 0, Parameters := emptyPage }
      managerFailFixture
      = ([], some ("failed to get last commits: " ++ "boom")) :=
  (check_error_spec _ _).1 "boom" rfl

end GithubPRResource
